import Mathlib

/-!
Verification of the rotated planar XY / XZZXdY code family and its
matrix-product-state decoder scaffolding, as a shallow embedding.

The embedding follows the Python sources:
  - `_rotatedplanarxzzxdyrmpsdecoder.py` (tensor node values, sample recovery,
    tensor-network node selection),
  - `_rotatedplanarxypauli.py` and `_rotatedplanarxzzxdypauli.py`
    (plaquette and logical operators),
  - `_rotatedplanarxycode.py` and `_rotatedplanarxzzxdycode.py`
    (construction-time validation).
Behaviour inherited from the external qecsim library (symplectic conversion,
site bounds, plaquette bounds, syndrome resolution) is modelled from the
specification and marked as such in doc comments.
-/

/-- Single-qubit Pauli symbol. -/
inductive Pauli
  | I
  | X
  | Y
  | Z
deriving DecidableEq

/-- Modelled from the spec: qecsim paulitools conversion of a single Pauli
symbol to binary symplectic form, an (x-bit, z-bit) pair with Y having both
bits set (spec section 3, glossary). -/
def pauli_to_bsf : Pauli → Nat × Nat
  | Pauli.I => (0, 0)
  | Pauli.X => (1, 0)
  | Pauli.Y => (1, 1)
  | Pauli.Z => (0, 1)

/-- Modelled from the spec: qecsim paulitools conversion of a symplectic bit
pair back to a single Pauli symbol. -/
def bsf_to_pauli : Nat × Nat → Pauli
  | (0, 0) => Pauli.I
  | (1, 0) => Pauli.X
  | (1, 1) => Pauli.Y
  | (0, 1) => Pauli.Z
  | _ => Pauli.I

/-- Probability lookup by Pauli symbol in an ordered (I, X, Y, Z) 4-tuple,
as the dict `op_to_pr = dict(zip(paulis, prob_dist))` in the decoder source. -/
def op_to_pr {A : Type} (prob_dist : A × A × A × A) : Pauli → A
  | Pauli.I => prob_dist.1
  | Pauli.X => prob_dist.2.1
  | Pauli.Y => prob_dist.2.2.1
  | Pauli.Z => prob_dist.2.2.2

/-- Embeds `TNC.h_node_value` from `_rotatedplanarxzzxdyrmpsdecoder.py` (lines
178-186): the horizontal qubit tensor element, the noise probability of the
Pauli `(f + n*Z + e*X + s*Z + w*X) % 2` in symplectic form. -/
def h_node_value {A : Type} (prob_dist : A × A × A × A) (f : Pauli)
    (n e s w : Nat) : A :=
  let fb := pauli_to_bsf f
  let Xb := pauli_to_bsf Pauli.X
  let Zb := pauli_to_bsf Pauli.Z
  let op : Nat × Nat :=
    ((fb.1 + n * Zb.1 + e * Xb.1 + s * Zb.1 + w * Xb.1) % 2,
     (fb.2 + n * Zb.2 + e * Xb.2 + s * Zb.2 + w * Xb.2) % 2)
  op_to_pr prob_dist (bsf_to_pauli op)

/-- Embeds `TNC.v_node_value` from the decoder source (lines 212-216): defined by
delegation to `h_node_value`. -/
def v_node_value {A : Type} (prob_dist : A × A × A × A) (f : Pauli)
    (n e s w : Nat) : A :=
  h_node_value prob_dist f n e s w

/-- Embeds `TNC.d_node_value` from the decoder source (lines 240-249): the diagonal
qubit tensor element, with Y in place of Z on the north and south bonds. -/
def d_node_value {A : Type} (prob_dist : A × A × A × A) (f : Pauli)
    (n e s w : Nat) : A :=
  let fb := pauli_to_bsf f
  let Xb := pauli_to_bsf Pauli.X
  let Yb := pauli_to_bsf Pauli.Y
  let op : Nat × Nat :=
    ((fb.1 + n * Yb.1 + e * Xb.1 + s * Yb.1 + w * Xb.1) % 2,
     (fb.2 + n * Yb.2 + e * Xb.2 + s * Yb.2 + w * Xb.2) % 2)
  op_to_pr prob_dist (bsf_to_pauli op)

/-- Mod-2 (symplectic XOR) composition of two single-qubit Pauli symbols,
used to state claims about node values independently of the source encoding. -/
def pauli_mul (a b : Pauli) : Pauli :=
  bsf_to_pauli (((pauli_to_bsf a).1 + (pauli_to_bsf b).1) % 2,
                ((pauli_to_bsf a).2 + (pauli_to_bsf b).2) % 2)

/-- The single-qubit Pauli obtained by composing `f` with `pn` when `n = 1`,
`pe` when `e = 1`, `ps` when `s = 1` and `pw` when `w = 1`. -/
def bond_composed (f : Pauli) (pn pe ps pw : Pauli) (n e s w : Nat) : Pauli :=
  pauli_mul
    (pauli_mul
      (pauli_mul
        (pauli_mul f (if n = 1 then pn else Pauli.I))
        (if e = 1 then pe else Pauli.I))
      (if s = 1 then ps else Pauli.I))
    (if w = 1 then pw else Pauli.I)

/-- The symplectic bit pair of a single Pauli symbol, as Booleans. -/
def pauliBits (p : Pauli) : Bool × Bool :=
  match p with
  | Pauli.I => (false, false)
  | Pauli.X => (true, false)
  | Pauli.Y => (true, true)
  | Pauli.Z => (false, true)

/-- The inverse of `pauliBits`. -/
def bitsPauli (b : Bool × Bool) : Pauli :=
  match b with
  | (false, false) => Pauli.I
  | (true, false) => Pauli.X
  | (true, true) => Pauli.Y
  | (false, true) => Pauli.Z

/-- Componentwise XOR of two symplectic bit pairs. -/
def xorP (a b : Bool × Bool) : Bool × Bool := (xor a.1 b.1, xor a.2 b.2)

/-- A Pauli operator on the lattice, as the symplectic bit pair it assigns to
each site index. Modelled from the spec: a mapping from every lattice site to
one of I, X, Y, Z stored as a symplectic bit-pair per site, composed by
bitwise XOR (spec section 3). -/
def PauliState : Type := (Int × Int) → Bool × Bool

/-- The identity operator, as produced by `code.new_pauli()`. -/
def identityState : PauliState := fun _ => (false, false)

/-- The single Pauli symbol an operator applies at a site
(`RotatedPlanarPauli.operator`). -/
def operatorAt (st : PauliState) (i : Int × Int) : Pauli := bitsPauli (st i)

/-- Embeds `site_bounds` of a distance-d code: (max_site_x, max_site_y) = (d-1, d-1).
Modelled from the spec: sites occupy a (size x size) grid with origin at the
lower left (spec section 3). -/
def site_bounds (d : Nat) : Int × Int := ((d : Int) - 1, (d : Int) - 1)

/-- Modelled from the spec: a site index is within lattice bounds when both
coordinates lie between 0 and the corresponding site bound inclusive. -/
def is_in_site_bounds (d : Nat) (i : Int × Int) : Bool :=
  decide (0 ≤ i.1 ∧ i.1 ≤ (site_bounds d).1 ∧ 0 ≤ i.2 ∧ i.2 ≤ (site_bounds d).2)

/-- Modelled from the spec: the plaquette-type classifier, independent of
lattice bounds; with the qecsim convention a Z-plaquette has even coordinate
parity (this matches the lattice diagrams in the source docstrings). -/
def is_z_plaquette (i : Int × Int) : Bool := decide ((i.1 + i.2) % 2 = 0)

/-- Modelled from the spec: the X-plaquette classifier, the complement of
`is_z_plaquette`. -/
def is_x_plaquette (i : Int × Int) : Bool := ! is_z_plaquette i

/-- Modelled from the spec: valid plaquette indices extend one unit beyond the
site grid on each mixed boundary; even-parity plaquettes reach one unit beyond
the top and bottom rows, odd-parity plaquettes one unit beyond the left and
right columns, exactly as in the 3x3 lattice diagrams of the source
docstrings. -/
def is_in_plaquette_bounds (d : Nat) (i : Int × Int) : Bool :=
  let mx := (site_bounds d).1
  let my := (site_bounds d).2
  if is_z_plaquette i then
    decide (0 ≤ i.1 ∧ i.1 ≤ mx - 1 ∧ -1 ≤ i.2 ∧ i.2 ≤ my)
  else
    decide (-1 ≤ i.1 ∧ i.1 ≤ mx ∧ 0 ≤ i.2 ∧ i.2 ≤ my - 1)

/-- Modelled from the spec: `site(operator, index)` for a single index; if the
index is within site bounds, mod-2 compose the given single-qubit Pauli into
the existing value at that site, otherwise ignore it (spec section 4.2). -/
def site1 (d : Nat) (op : Pauli) (i : Int × Int) (st : PauliState) : PauliState :=
  if is_in_site_bounds d i then
    fun j => if j = i then xorP (st j) (pauliBits op) else st j
  else st

/-- Embeds `site(operator, *indices)`: apply `site1` to each index in turn. -/
def siteList (d : Nat) (op : Pauli) (l : List (Int × Int)) (st : PauliState) :
    PauliState :=
  l.foldl (fun acc i => site1 d op i acc) st

/-- Embeds `RotatedPlanarXYPauli.plaquette` from `_rotatedplanarxypauli.py` (lines
18-46): apply Y to all four corners of an even-parity plaquette, X to all four
corners of an odd-parity plaquette; no effect outside plaquette bounds. -/
def plaquetteXY (d : Nat) (index : Int × Int) (st : PauliState) : PauliState :=
  let x := index.1
  let y := index.2
  if is_in_plaquette_bounds d index then
    if (y + x) % 2 = 0 then
      site1 d Pauli.Y (x + 1, y)
        (site1 d Pauli.Y (x + 1, y + 1)
          (site1 d Pauli.Y (x, y + 1)
            (site1 d Pauli.Y (x, y) st)))
    else
      site1 d Pauli.X (x + 1, y)
        (site1 d Pauli.X (x + 1, y + 1)
          (site1 d Pauli.X (x, y + 1)
            (site1 d Pauli.X (x, y) st)))
  else st

/-- Embeds `RotatedPlanarXZZXdYPauli.plaquette` from `_rotatedplanarxzzxdypauli.py`
(lines 18-54): baseline Z(SW), X(NW), Z(NE), X(SE); with reflected coordinate
y_prim = (max_site_y - 1) - y, a plaquette one up from the diagonal
(y_prim + 1 = x_prim) has its SW corner switched to Y and a plaquette one down
(y_prim - 1 = x_prim) has its NE corner switched to Y; no effect outside
plaquette bounds. -/
def plaquetteXZZXdY (d : Nat) (index : Int × Int) (st : PauliState) : PauliState :=
  let x := index.1
  let y := index.2
  let max_site_y := (site_bounds d).2
  let x_prim := x
  let y_prim := (max_site_y - 1) - y
  if is_in_plaquette_bounds d index then
    if y_prim + 1 = x_prim then
      site1 d Pauli.X (x + 1, y)
        (site1 d Pauli.Z (x + 1, y + 1)
          (site1 d Pauli.X (x, y + 1)
            (site1 d Pauli.Y (x, y) st)))
    else if y_prim - 1 = x_prim then
      site1 d Pauli.X (x + 1, y)
        (site1 d Pauli.Y (x + 1, y + 1)
          (site1 d Pauli.X (x, y + 1)
            (site1 d Pauli.Z (x, y) st)))
    else
      site1 d Pauli.X (x + 1, y)
        (site1 d Pauli.Z (x + 1, y + 1)
          (site1 d Pauli.X (x, y + 1)
            (site1 d Pauli.Z (x, y) st)))
  else st

/-- The bottom-row site indices (x, 0) for x = 0 .. max_site_x. -/
def bottomRow (d : Nat) : List (Int × Int) :=
  (List.range d).map (fun (x : Nat) => ((x : Int), 0))

/-- The rightmost-column site indices (max_site_x, y) for y = 0 .. max_site_y. -/
def rightColumn (d : Nat) : List (Int × Int) :=
  (List.range d).map (fun (y : Nat) => ((d : Int) - 1, (y : Int)))

/-- Embeds `RotatedPlanarXYPauli.logical_x`: X on every bottom-row site. -/
def logical_x_XY (d : Nat) (st : PauliState) : PauliState :=
  siteList d Pauli.X (bottomRow d) st

/-- Embeds `RotatedPlanarXYPauli.logical_y`: Y on every rightmost-column site. -/
def logical_y_XY (d : Nat) (st : PauliState) : PauliState :=
  siteList d Pauli.Y (rightColumn d) st

/-- Embeds `RotatedPlanarXYPauli.logical_z`: X on every bottom-row site followed by
Y on every rightmost-column site (lines 74-86 of the source). -/
def logical_z_XY (d : Nat) (st : PauliState) : PauliState :=
  siteList d Pauli.Y (rightColumn d) (siteList d Pauli.X (bottomRow d) st)

/-- The even-x bottom-row sites, `range(0, max_site_x + 1, 2)` in the source. -/
def bottomRowEven (d : Nat) : List (Int × Int) :=
  ((List.range d).filter (fun x => x % 2 = 0)).map (fun (x : Nat) => ((x : Int), 0))

/-- The odd-x bottom-row sites, `range(1, max_site_x + 1, 2)` in the source. -/
def bottomRowOdd (d : Nat) : List (Int × Int) :=
  ((List.range d).filter (fun x => x % 2 = 1)).map (fun (x : Nat) => ((x : Int), 0))

/-- The even-y rightmost-column sites with y at least 2,
`range(2, max_site_y + 1, 2)` in the source. -/
def rightColumnEven2 (d : Nat) : List (Int × Int) :=
  ((List.range d).filter (fun y => y % 2 = 0 ∧ 2 ≤ y)).map
    (fun (y : Nat) => ((d : Int) - 1, (y : Int)))

/-- The odd-y rightmost-column sites, `range(1, max_site_y + 1, 2)` in the
source. -/
def rightColumnOdd (d : Nat) : List (Int × Int) :=
  ((List.range d).filter (fun y => y % 2 = 1)).map
    (fun (y : Nat) => ((d : Int) - 1, (y : Int)))

/-- Embeds `RotatedPlanarXZZXdYPauli.logical_x`: X on even and Z on odd bottom-row
sites (lines 56-68 of the source). -/
def logical_x_XZZXdY (d : Nat) (st : PauliState) : PauliState :=
  siteList d Pauli.Z (bottomRowOdd d) (siteList d Pauli.X (bottomRowEven d) st)

/-- Embeds `RotatedPlanarXZZXdYPauli.logical_y`: Y on the lower-right corner, then Z
on even-y sites from 2 up and X on odd-y sites of the rightmost column
(lines 70-83 of the source). -/
def logical_y_XZZXdY (d : Nat) (st : PauliState) : PauliState :=
  siteList d Pauli.X (rightColumnOdd d)
    (siteList d Pauli.Z (rightColumnEven2 d)
      (site1 d Pauli.Y ((d : Int) - 1, 0) st))

/-- Modelled from the spec: `RotatedPlanarXZZXdYPauli` defines no `logical_z`
of its own in the repository; the spec fixes logical Z as the mod-2
composition of logical Y and logical X (spec sections 4.2 and 8). -/
def logical_z_XZZXdY (d : Nat) (st : PauliState) : PauliState :=
  logical_x_XZZXdY d (logical_y_XZZXdY d st)

/-- A Python constructor argument: either a value interpretable as an integer
or not (in which case `operator.index` raises TypeError). -/
inductive PyParam
  | int (n : Int)
  | nonInt
deriving DecidableEq

/-- Outcome of running a code constructor. -/
inductive InitOutcome
  | ok
  | valueError
  | typeError
deriving DecidableEq

/-- Modelled from the spec: `RotatedPlanarCode.MIN_SIZE` is (3, 3), the
minimum number of rows and columns (spec sections 3 and 8). -/
def MIN_SIZE : Int × Int := (3, 3)

/-- Embeds `RotatedPlanarXYCode.__init__` validation from `_rotatedplanarxycode.py`
(lines 65-82): TypeError when the parameter cannot be interpreted as an
integer, ValueError when the distance is below `MIN_SIZE` or even, success
otherwise (the superclass constructor succeeds for odd distance at least 3,
modelled from the spec). -/
def rotatedPlanarXYCodeInit (p : PyParam) : InitOutcome :=
  match p with
  | PyParam.nonInt => InitOutcome.typeError
  | PyParam.int distance =>
    if distance < MIN_SIZE.1 then InitOutcome.valueError
    else if distance % 2 = 0 then InitOutcome.valueError
    else InitOutcome.ok

/-- Embeds `RotatedPlanarXZZXdYCode.__init__` validation from
`_rotatedplanarxzzxdycode.py` (lines 66-83); the body is identical to the XY
variant. -/
def rotatedPlanarXZZXdYCodeInit (p : PyParam) : InitOutcome :=
  match p with
  | PyParam.nonInt => InitOutcome.typeError
  | PyParam.int distance =>
    if distance < MIN_SIZE.1 then InitOutcome.valueError
    else if distance % 2 = 0 then InitOutcome.valueError
    else InitOutcome.ok

/-- The down-left while loop of `sample_recovery`: collect sites from (x, y)
decrementing both coordinates while both stay non-negative. -/
def downLeftSites (x y : Int) : List (Int × Int) :=
  if h : 0 ≤ x ∧ 0 ≤ y then (x, y) :: downLeftSites (x - 1) (y - 1) else []
termination_by (x + 1).toNat
decreasing_by omega

/-- The up-right while loop of `sample_recovery`: collect sites from (x, y)
incrementing both coordinates while both stay within the site bounds. -/
def upRightSites (mx my : Int) (x y : Int) : List (Int × Int) :=
  if h : x ≤ mx ∧ y ≤ my then (x, y) :: upRightSites mx my (x + 1) (y + 1)
  else []
termination_by (mx + 1 - x).toNat
decreasing_by omega

/-- The diagonal X-path applied by `sample_recovery` for one syndrome
plaquette (decoder source lines 148-165): upper-left even diagonals and
lower-right odd diagonals join to the lower-left boundary, all others join to
the upper-right boundary from one site up-right of the plaquette corner. -/
def recoveryPathSites (d : Nat) (p : Int × Int) : List (Int × Int) :=
  if (p.1 < p.2 ∧ (p.1 - p.2) % 2 = 0) ∨ (p.2 < p.1 ∧ (p.1 - p.2) % 2 = 1) then
    downLeftSites p.1 p.2
  else
    upRightSites (site_bounds d).1 (site_bounds d).2 (p.1 + 1) (p.2 + 1)

/-- Embeds `RotatedPlanarXZZXdYRMPSDecoder.sample_recovery` (decoder source lines
127-167) applied to a list of syndrome plaquette indices: starting from the
identity Pauli, apply an X at every site of each plaquette's diagonal path. -/
def sample_recovery (d : Nat) (plaqs : List (Int × Int)) : PauliState :=
  plaqs.foldl (fun st p => siteList d Pauli.X (recoveryPathSites d p) st)
    identityState

/-- All plaquette indices of the distance-d code in a fixed order. Modelled
from the spec: valid plaquette indices extend one unit beyond the site grid,
so both coordinates range over -1 .. max and are filtered by the bounds
predicate. -/
def plaquette_indices (d : Nat) : List (Int × Int) :=
  (((List.range (d + 1)).map (fun (a : Nat) => (a : Int) - 1)).flatMap (fun x =>
    ((List.range (d + 1)).map (fun (b : Nat) => (b : Int) - 1)).map (fun y => (x, y)))).filter
    (fun i => is_in_plaquette_bounds d i)

/-- Modelled from the spec: `syndrome_to_plaquette_indices` resolves a
syndrome bit-vector to the plaquette indices whose stabilizer measurement is
violated, in the fixed stabilizer order. -/
def syndrome_to_plaquette_indices (d : Nat) (syndrome : List Bool) :
    List (Int × Int) :=
  ((plaquette_indices d).zip syndrome).filterMap
    (fun pb => if pb.2 then some pb.1 else none)

/-- All site indices of the distance-d code. Modelled from the spec: the site
grid is size x size with origin at the lower left. -/
def all_sites (d : Nat) : List (Int × Int) :=
  (List.range d).flatMap
    (fun (x : Nat) => (List.range d).map (fun (y : Nat) => ((x : Int), (y : Int))))

/-- The symplectic pairing of two single-site bit pairs:
x-bit of one AND z-bit of the other, XORed both ways. -/
def sympPair (a b : Bool × Bool) : Bool := xor (a.1 && b.2) (a.2 && b.1)

/-- Modelled from the spec: the binary symplectic product of two operators,
summed mod 2 over all sites of the code; a syndrome bit is the symplectic
product of a stabilizer with the error operator (spec glossary). -/
def bsp (d : Nat) (a b : PauliState) : Bool :=
  (all_sites d).foldr (fun i acc => xor (sympPair (a i) (b i)) acc) false

/-- The stabilizer generator of a plaquette of the XZZXdY code, as the
plaquette operator applied to the identity. Modelled from the spec: every
in-bounds plaquette is a stabilizer. -/
def stabState (d : Nat) (q : Int × Int) : PauliState :=
  plaquetteXZZXdY d q identityState

/-- Modelled from the spec: recompute the syndrome of an operator, one
commutation bit per in-bounds plaquette in the fixed stabilizer order. -/
def syndromeOf (d : Nat) (st : PauliState) : List Bool :=
  (plaquette_indices d).map (fun q => bsp d (stabState d q) st)

/-- Compass direction tag passed to the tensor creators. -/
inductive Compass
  | cn
  | cne
  | ce
  | cse
  | cs
  | csw
  | cw
  | cnw
  | interior
deriving DecidableEq

/-- Embeds `_compass_q_direction` from `create_tn` (decoder source lines 307-311):
the border direction of a site, or interior; built like the Python dict
lookups (on a degenerate lattice where max coincides with 0 the later dict
entry wins, hence the order of the tests). -/
def compass_q_direction (d : Nat) (i : Int × Int) : Compass :=
  let mx := (site_bounds d).1
  let my := (site_bounds d).2
  if i.2 = 0 then
    if i.1 = mx then Compass.cse else if i.1 = 0 then Compass.csw else Compass.cs
  else if i.2 = my then
    if i.1 = mx then Compass.cne else if i.1 = 0 then Compass.cnw else Compass.cn
  else
    if i.1 = mx then Compass.ce else if i.1 = 0 then Compass.cw else Compass.interior

/-- The kind of qubit tensor `create_tn` places at a site. -/
inductive QNodeKind
  | hNode
  | vNode
  | dNode
deriving DecidableEq

/-- The qubit-node creator `create_tn` invokes at an in-bounds site together
with the compass direction passed to it (decoder source lines 328-341): for a
Z-plaquette site index, a d-node when x equals max_site_y - y and an h-node
otherwise; for an X-plaquette site index, a v-node. -/
def create_tn_q_node (d : Nat) (i : Int × Int) : QNodeKind × Compass :=
  if is_z_plaquette i then
    let x := i.1
    let y := i.2
    let x_prim := x
    let y_prim := (site_bounds d).2 - y
    if x_prim = y_prim then (QNodeKind.dNode, compass_q_direction d i)
    else (QNodeKind.hNode, compass_q_direction d i)
  else (QNodeKind.vNode, compass_q_direction d i)

/-- The effect of one `site1` call at index i on the bit pair stored at j:
the pair XORed in when the call touches j, and the zero pair otherwise. -/
def siteMask (d : Nat) (op : Pauli) (i j : Int × Int) : Bool × Bool :=
  if is_in_site_bounds d i ∧ j = i then pauliBits op else (false, false)

/-- The corner rule asserted by claim C2 read literally: with reflected
coordinate y_refl = max_site_y - y, a plaquette one unit above the diagonal
(x = y_refl + 1) has its SW corner promoted to Y, a plaquette one unit below
(x = y_refl - 1) has its NE corner promoted to Y, and otherwise the corners
are Z(SW), X(NW), Z(NE), X(SE); no effect outside plaquette bounds. -/
def plaquetteC2Stated (d : Nat) (index : Int × Int) (st : PauliState) : PauliState :=
  let x := index.1
  let y := index.2
  let y_refl := (site_bounds d).2 - y
  let swOp := if x = y_refl + 1 then Pauli.Y else Pauli.Z
  let neOp := if x = y_refl - 1 then Pauli.Y else Pauli.Z
  if is_in_plaquette_bounds d index then
    site1 d Pauli.X (x + 1, y)
      (site1 d neOp (x + 1, y + 1)
        (site1 d Pauli.X (x, y + 1)
          (site1 d swOp (x, y) st)))
  else st

/-- Claim C2 amended: identical to `plaquetteC2Stated` except that the
reflected coordinate used to test adjacency to the diagonal is
y_refl = (max_site_y - 1) - y, as the source computes it. -/
def plaquetteC2Amended (d : Nat) (index : Int × Int) (st : PauliState) : PauliState :=
  let x := index.1
  let y := index.2
  let y_refl := ((site_bounds d).2 - 1) - y
  let swOp := if x = y_refl + 1 then Pauli.Y else Pauli.Z
  let neOp := if x = y_refl - 1 then Pauli.Y else Pauli.Z
  if is_in_plaquette_bounds d index then
    site1 d Pauli.X (x + 1, y)
      (site1 d neOp (x + 1, y + 1)
        (site1 d Pauli.X (x, y + 1)
          (site1 d swOp (x, y) st)))
  else st

/-- The path asserted by claim C3 for one violated plaquette, as an explicit
enumeration: down-left from (x, y) to the lower-left boundary inclusive for
plaquettes strictly above the main diagonal with even parity or strictly
below with odd parity, and up-right from (x+1, y+1) to the upper-right
boundary inclusive for all others. -/
def claimPathC3 (d : Nat) (p : Int × Int) : List (Int × Int) :=
  if (p.1 < p.2 ∧ (p.1 - p.2) % 2 = 0) ∨ (p.2 < p.1 ∧ (p.1 - p.2) % 2 = 1) then
    if 0 ≤ p.1 ∧ 0 ≤ p.2 then
      (List.range ((min p.1 p.2).toNat + 1)).map
        (fun (k : Nat) => (p.1 - (k : Int), p.2 - (k : Int)))
    else []
  else
    if p.1 + 1 ≤ (site_bounds d).1 ∧ p.2 + 1 ≤ (site_bounds d).2 then
      (List.range
          ((min ((site_bounds d).1 - (p.1 + 1)) ((site_bounds d).2 - (p.2 + 1))).toNat
            + 1)).map
        (fun (k : Nat) => (p.1 + 1 + (k : Int), p.2 + 1 + (k : Int)))
    else []

/-- The operator asserted by claim C3: a single-qubit X at every site of each
violated plaquette's claimed path, composed over the violated plaquettes. -/
def claimRecoveryC3 (d : Nat) (plaqs : List (Int × Int)) : PauliState :=
  plaqs.foldl (fun st p => siteList d Pauli.X (claimPathC3 d p) st) identityState

/-- The node assignment asserted by claim C5: a d-node exactly when the site
lies on the structural diagonal x = max_site_y - y and classifies as a
Z-plaquette index, an h-node on every other Z-plaquette-classified site, a
v-node on every X-plaquette-classified site, each with its boundary compass
direction. -/
def claimQNodeC5 (d : Nat) (i : Int × Int) : QNodeKind × Compass :=
  (if is_z_plaquette i ∧ i.1 = (site_bounds d).2 - i.2 then QNodeKind.dNode
   else if is_z_plaquette i then QNodeKind.hNode
   else QNodeKind.vNode,
   compass_q_direction d i)

/-- The parity of the number of occurrences of q in a list of plaquette
indices. -/
def xorCount (l : List (Int × Int)) (q : Int × Int) : Bool :=
  l.foldr (fun p acc => xor (decide (p = q)) acc) false

/-- The mod-2 contribution of applying `op` at every index of a list to the
symplectic product against a fixed operator a: in-bounds indices contribute
the symplectic pairing of a's local value with op. -/
def listContrib (d : Nat) (a : PauliState) (op : Pauli)
    (l : List (Int × Int)) : Bool :=
  l.foldr
    (fun i acc =>
      xor (if is_in_site_bounds d i then sympPair (a i) (pauliBits op) else false)
        acc)
    false

/-- The total mod-2 contribution of the recovery paths of a list of
plaquettes to the symplectic product against a fixed operator a. -/
def recoveryContrib (d : Nat) (a : PauliState) (plaqs : List (Int × Int)) : Bool :=
  plaqs.foldr
    (fun p acc => xor (listContrib d a Pauli.X (recoveryPathSites d p)) acc) false

/-! Helper lemmas. -/

/-- Pointwise description of a single site application. -/
theorem site1_apply (d : Nat) (op : Pauli) (i : Int × Int) (st : PauliState)
    (j : Int × Int) : site1 d op i st j = xorP (st j) (siteMask d op i j) := by
  unfold site1 siteMask
  by_cases hb : is_in_site_bounds d i = true
  · by_cases hj : j = i
    · simp [hb, hj]
    · simp [hb, hj]
      cases h : st j
      simp [xorP]
  · simp [hb]
    cases h : st j
    simp [xorP]

/-- XORing the same four masks twice returns any pair to its start. -/
theorem xorP_chain8 : ∀ p a b c e : Bool × Bool,
    xorP (xorP (xorP (xorP (xorP (xorP (xorP (xorP p a) b) c) e) a) b) c) e
      = p := by decide

/-- Swapping the order of two mask XORs. -/
theorem xorP_swap : ∀ p a b : Bool × Bool,
    xorP (xorP p a) b = xorP (xorP p b) a := by decide

/-- Two single site applications commute. -/
theorem site1_comm (d : Nat) (o1 o2 : Pauli) (i1 i2 : Int × Int)
    (st : PauliState) :
    site1 d o1 i1 (site1 d o2 i2 st) = site1 d o2 i2 (site1 d o1 i1 st) := by
  funext j
  simp only [site1_apply]
  exact xorP_swap _ _ _

/-- Unfolding one step of a site list application. -/
theorem siteList_cons (d : Nat) (op : Pauli) (a : Int × Int)
    (l : List (Int × Int)) (st : PauliState) :
    siteList d op (a :: l) st = siteList d op l (site1 d op a st) := rfl

/-- A site list application commutes with a single site application. -/
theorem siteList_site1_comm (d : Nat) (o oi : Pauli) (l : List (Int × Int))
    (i : Int × Int) (st : PauliState) :
    siteList d o l (site1 d oi i st) = site1 d oi i (siteList d o l st) := by
  induction l generalizing st with
  | nil => rfl
  | cons a l ih => rw [siteList_cons, site1_comm, ih, siteList_cons]

/-- Two site list applications commute. -/
theorem siteList_comm (d : Nat) (o1 o2 : Pauli) (l1 l2 : List (Int × Int))
    (st : PauliState) :
    siteList d o1 l1 (siteList d o2 l2 st)
      = siteList d o2 l2 (siteList d o1 l1 st) := by
  induction l1 generalizing st with
  | nil => rfl
  | cons a l ih =>
    rw [siteList_cons, ← siteList_site1_comm, ih, siteList_cons]

/-! Claim theorems. -/

/-- C1: for every probability 4-tuple, fixed Pauli f and bond values in
{0, 1}, the h-node entry is the prob_dist entry of f composed mod 2 with Z on
north, X on east, Z on south, X on west bonds, and the d-node entry likewise
with Y in place of Z on north and south. -/
theorem claim_C1 {A : Type} (prob_dist : A × A × A × A) (f : Pauli)
    (n e s w : Nat) (hn : n ≤ 1) (he : e ≤ 1) (hs : s ≤ 1) (hw : w ≤ 1) :
    h_node_value prob_dist f n e s w
        = op_to_pr prob_dist (bond_composed f Pauli.Z Pauli.X Pauli.Z Pauli.X n e s w)
      ∧ d_node_value prob_dist f n e s w
        = op_to_pr prob_dist (bond_composed f Pauli.Y Pauli.X Pauli.Y Pauli.X n e s w) := by
  interval_cases n <;> interval_cases e <;> interval_cases s <;>
    interval_cases w <;> cases f <;> exact ⟨rfl, rfl⟩

/-- Witness for C1 at a concrete probability tuple and bond pattern. -/
theorem claim_C1_witness :
    h_node_value ((1 : Nat), 2, 3, 4) Pauli.X 1 0 1 0
        = op_to_pr ((1 : Nat), 2, 3, 4)
            (bond_composed Pauli.X Pauli.Z Pauli.X Pauli.Z Pauli.X 1 0 1 0)
      ∧ d_node_value ((1 : Nat), 2, 3, 4) Pauli.X 1 0 1 0
        = op_to_pr ((1 : Nat), 2, 3, 4)
            (bond_composed Pauli.X Pauli.Y Pauli.X Pauli.Y Pauli.X 1 0 1 0) :=
  claim_C1 ((1 : Nat), 2, 3, 4) Pauli.X 1 0 1 0 (by decide) (by decide)
    (by decide) (by decide)

/-- C9: the vertical and horizontal node-value functions are extensionally
equal. -/
theorem claim_C9 {A : Type} (prob_dist : A × A × A × A) (f : Pauli)
    (n e s w : Nat) :
    v_node_value prob_dist f n e s w = h_node_value prob_dist f n e s w := rfl

/-- C7: applying a plaquette operator at an index outside plaquette bounds
leaves the operator unchanged, for both code variants. -/
theorem claim_C7 (d : Nat) (index : Int × Int) (st : PauliState)
    (h : is_in_plaquette_bounds d index = false) :
    plaquetteXY d index st = st ∧ plaquetteXZZXdY d index st = st := by
  constructor
  · unfold plaquetteXY
    simp [h]
  · unfold plaquetteXZZXdY
    simp [h]

/-- Witness for C7 at a concrete out-of-bounds index. -/
theorem claim_C7_witness :
    is_in_plaquette_bounds 3 (7, 0) = false
      ∧ (plaquetteXY 3 (7, 0) identityState = identityState
          ∧ plaquetteXZZXdY 3 (7, 0) identityState = identityState) :=
  ⟨by decide, claim_C7 3 (7, 0) identityState (by decide)⟩

/-- C10: the plaquette operation is self-inverse at every index, for both
code variants. -/
theorem claim_C10 (d : Nat) (index : Int × Int) (st : PauliState) :
    plaquetteXY d index (plaquetteXY d index st) = st
      ∧ plaquetteXZZXdY d index (plaquetteXZZXdY d index st) = st := by
  constructor
  · unfold plaquetteXY
    dsimp only
    split_ifs with h1 h2
    · funext j
      simp only [site1_apply]
      exact xorP_chain8 _ _ _ _ _
    · funext j
      simp only [site1_apply]
      exact xorP_chain8 _ _ _ _ _
    · rfl
  · unfold plaquetteXZZXdY
    dsimp only
    split_ifs with h1 h2 h3
    · funext j
      simp only [site1_apply]
      exact xorP_chain8 _ _ _ _ _
    · funext j
      simp only [site1_apply]
      exact xorP_chain8 _ _ _ _ _
    · funext j
      simp only [site1_apply]
      exact xorP_chain8 _ _ _ _ _
    · rfl

/-- C2 counterexample: at plaquette (1, 1) of the distance-3 XZZXdY code
(in plaquette bounds), the source switches the SW corner to Y, while the
claim's rule with reflected coordinate max_y - y leaves it at Z. -/
theorem claim_C2_counterexample :
    is_in_plaquette_bounds 3 (1, 1) = true
      ∧ operatorAt (plaquetteXZZXdY 3 (1, 1) identityState) (1, 1) = Pauli.Y
      ∧ operatorAt (plaquetteC2Stated 3 (1, 1) identityState) (1, 1) = Pauli.Z := by
  refine ⟨by decide, ?_, ?_⟩ <;> decide

/-- C2 amended: the XZZXdY plaquette operator applies Z(SW), X(NW), Z(NE),
X(SE), except that with reflected coordinate y_refl = (max_y - 1) - y a
plaquette one unit above the diagonal (x = y_refl + 1) has exactly its SW
corner switched to Y and one unit below (x = y_refl - 1) exactly its NE
corner; no other corner is ever changed. -/
theorem claim_C2_amended (d : Nat) (index : Int × Int) (st : PauliState) :
    plaquetteXZZXdY d index st = plaquetteC2Amended d index st := by
  unfold plaquetteXZZXdY plaquetteC2Amended
  dsimp only
  split_ifs with h1 h2 h3 h4 h5 h6 h7 <;> first | rfl | omega

/-- C5: in the tensor network of create_tn, an in-bounds site receives the
diagonal node exactly when it classifies as a Z-plaquette index and lies on
the structural diagonal x = max_site_y - y, every other Z-plaquette site an
h-node and every X-plaquette site a v-node, each with its boundary compass
direction. -/
theorem claim_C5 (d : Nat) (i : Int × Int)
    (h : is_in_site_bounds d i = true) :
    create_tn_q_node d i = claimQNodeC5 d i := by
  unfold create_tn_q_node claimQNodeC5
  dsimp only
  split_ifs with h1 h2 h3 h4 h5 <;> first | rfl | simp_all

/-- Witness for C5 at the centre site of the distance-3 code. -/
theorem claim_C5_witness :
    is_in_site_bounds 3 (1, 1) = true
      ∧ create_tn_q_node 3 (1, 1) = claimQNodeC5 3 (1, 1) :=
  ⟨by decide, claim_C5 3 (1, 1) (by decide)⟩

/-- C8: for both code variants, construction succeeds exactly on odd integer
distances at least 3, raises a value error on even or too-small integer
distances, and raises a type error on a parameter that is not interpretable
as an integer. -/
theorem claim_C8 (distance : Int) :
    ((3 ≤ distance ∧ distance % 2 = 1) →
        rotatedPlanarXYCodeInit (PyParam.int distance) = InitOutcome.ok
          ∧ rotatedPlanarXZZXdYCodeInit (PyParam.int distance) = InitOutcome.ok)
      ∧ ((distance % 2 = 0 ∨ distance < 3) →
        rotatedPlanarXYCodeInit (PyParam.int distance) = InitOutcome.valueError
          ∧ rotatedPlanarXZZXdYCodeInit (PyParam.int distance)
              = InitOutcome.valueError)
      ∧ rotatedPlanarXYCodeInit PyParam.nonInt = InitOutcome.typeError
      ∧ rotatedPlanarXZZXdYCodeInit PyParam.nonInt = InitOutcome.typeError := by
  refine ⟨fun h => ?_, fun h => ?_, rfl, rfl⟩ <;>
    · unfold rotatedPlanarXYCodeInit rotatedPlanarXZZXdYCodeInit MIN_SIZE
      constructor <;> (dsimp only; split_ifs with h1 h2 <;> first | rfl | omega)

/-- Witness for C8 at distance 3 and at distance 2. -/
theorem claim_C8_witness :
    (rotatedPlanarXYCodeInit (PyParam.int 3) = InitOutcome.ok
        ∧ rotatedPlanarXZZXdYCodeInit (PyParam.int 3) = InitOutcome.ok)
      ∧ (rotatedPlanarXYCodeInit (PyParam.int 2) = InitOutcome.valueError
        ∧ rotatedPlanarXZZXdYCodeInit (PyParam.int 2) = InitOutcome.valueError) :=
  ⟨(claim_C8 3).1 (by decide), (claim_C8 2).2.1 (Or.inl (by decide))⟩

/-- C6: for both code variants, applying logical Z equals the mod-2
composition of logical Y and logical X, in either order. -/
theorem claim_C6 (d : Nat) (st : PauliState) :
    (logical_z_XY d st = logical_x_XY d (logical_y_XY d st)
      ∧ logical_z_XY d st = logical_y_XY d (logical_x_XY d st))
      ∧ (logical_z_XZZXdY d st = logical_x_XZZXdY d (logical_y_XZZXdY d st)
      ∧ logical_z_XZZXdY d st = logical_y_XZZXdY d (logical_x_XZZXdY d st)) := by
  refine ⟨⟨?_, rfl⟩, rfl, ?_⟩
  · unfold logical_z_XY logical_x_XY logical_y_XY
    rw [siteList_comm]
  · unfold logical_z_XZZXdY logical_x_XZZXdY logical_y_XZZXdY
    rw [siteList_comm d Pauli.X Pauli.X (bottomRowEven d) (rightColumnOdd d)]
    rw [siteList_comm d Pauli.X Pauli.Z (bottomRowEven d) (rightColumnEven2 d)]
    rw [siteList_site1_comm d Pauli.X Pauli.Y (bottomRowEven d)]
    rw [siteList_comm d Pauli.Z Pauli.X (bottomRowOdd d) (rightColumnOdd d)]
    rw [siteList_comm d Pauli.Z Pauli.Z (bottomRowOdd d) (rightColumnEven2 d)]
    rw [siteList_site1_comm d Pauli.Z Pauli.Y (bottomRowOdd d)]

/-- The down-left while loop enumerated explicitly, positive case. -/
theorem downLeftSites_pos (n : Nat) : ∀ (x y : Int), 0 ≤ x → 0 ≤ y →
    (min x y).toNat = n →
    downLeftSites x y
      = (List.range (n + 1)).map (fun (k : Nat) => (x - (k : Int), y - (k : Int))) := by
  induction n with
  | zero =>
    intro x y hx hy hn
    rw [downLeftSites, dif_pos ⟨hx, hy⟩, downLeftSites, dif_neg (by omega)]
    rw [show List.range 1 = [0] from rfl]
    simp
  | succ n ih =>
    intro x y hx hy hn
    rw [downLeftSites, dif_pos ⟨hx, hy⟩]
    rw [ih (x - 1) (y - 1) (by omega) (by omega) (by omega)]
    conv_rhs => rw [List.range_succ_eq_map]
    simp only [List.map_cons, List.map_map]
    congr 1
    · simp
    · refine List.map_congr_left ?_
      intro k hk
      simp only [Function.comp_apply, Prod.mk.injEq]
      constructor <;> push_cast <;> ring

/-- The down-left while loop enumerated explicitly. -/
theorem downLeftSites_eq (x y : Int) :
    downLeftSites x y
      = if 0 ≤ x ∧ 0 ≤ y then
          (List.range ((min x y).toNat + 1)).map
            (fun (k : Nat) => (x - (k : Int), y - (k : Int)))
        else [] := by
  by_cases h : 0 ≤ x ∧ 0 ≤ y
  · rw [if_pos h]
    exact downLeftSites_pos _ x y h.1 h.2 rfl
  · rw [if_neg h, downLeftSites, dif_neg h]

/-- The up-right while loop enumerated explicitly, positive case. -/
theorem upRightSites_pos (n : Nat) : ∀ (mx my x y : Int), x ≤ mx → y ≤ my →
    (min (mx - x) (my - y)).toNat = n →
    upRightSites mx my x y
      = (List.range (n + 1)).map (fun (k : Nat) => (x + (k : Int), y + (k : Int))) := by
  induction n with
  | zero =>
    intro mx my x y hx hy hn
    rw [upRightSites, dif_pos ⟨hx, hy⟩, upRightSites, dif_neg (by omega)]
    rw [show List.range 1 = [0] from rfl]
    simp
  | succ n ih =>
    intro mx my x y hx hy hn
    rw [upRightSites, dif_pos ⟨hx, hy⟩]
    rw [ih mx my (x + 1) (y + 1) (by omega) (by omega) (by omega)]
    conv_rhs => rw [List.range_succ_eq_map]
    simp only [List.map_cons, List.map_map]
    congr 1
    · simp
    · refine List.map_congr_left ?_
      intro k hk
      simp only [Function.comp_apply, Prod.mk.injEq]
      constructor <;> push_cast <;> ring

/-- The up-right while loop enumerated explicitly. -/
theorem upRightSites_eq (mx my x y : Int) :
    upRightSites mx my x y
      = if x ≤ mx ∧ y ≤ my then
          (List.range ((min (mx - x) (my - y)).toNat + 1)).map
            (fun (k : Nat) => (x + (k : Int), y + (k : Int)))
        else [] := by
  by_cases h : x ≤ mx ∧ y ≤ my
  · rw [if_pos h]
    exact upRightSites_pos _ mx my x y h.1 h.2 rfl
  · rw [if_neg h, upRightSites, dif_neg h]

/-- The sample-recovery path of a plaquette coincides with the explicit
diagonal path asserted by claim C3. -/
theorem recoveryPathSites_eq_claimPath (d : Nat) (p : Int × Int) :
    recoveryPathSites d p = claimPathC3 d p := by
  unfold recoveryPathSites claimPathC3
  rw [downLeftSites_eq, upRightSites_eq]

/-- C3: for every syndrome, the sample recovery operator is built by applying
a single-qubit X to every site of the claimed diagonal path of each violated
plaquette: down-left from (x, y) inclusive for plaquettes strictly above the
main diagonal with even parity or strictly below with odd parity, up-right
from (x+1, y+1) inclusive for all others. -/
theorem claim_C3 (d : Nat) (syndrome : List Bool) :
    sample_recovery d (syndrome_to_plaquette_indices d syndrome)
      = claimRecoveryC3 d (syndrome_to_plaquette_indices d syndrome) := by
  unfold sample_recovery claimRecoveryC3
  simp only [recoveryPathSites_eq_claimPath]

/-- Rearranging three XORed booleans. -/
theorem bool_xor_helper1 : ∀ a b c : Bool, xor a c = xor (xor b c) (xor a b) := by
  decide

/-- XOR-folds agree when the summand functions agree on the list. -/
theorem xor_foldr_congr (t1 t2 : (Int × Int) → Bool) (l : List (Int × Int))
    (h : ∀ j ∈ l, t2 j = t1 j) :
    l.foldr (fun j acc => xor (t2 j) acc) false
      = l.foldr (fun j acc => xor (t1 j) acc) false := by
  induction l with
  | nil => rfl
  | cons a l ih =>
    simp only [List.foldr_cons]
    rw [h a (by simp), ih (fun j hj => h j (by simp [hj]))]

/-- Changing the summand at one point changes an XOR-fold over a
duplicate-free list by that point's XOR difference. -/
theorem xor_foldr_update (t1 t2 : (Int × Int) → Bool) (i : Int × Int)
    (l : List (Int × Int)) (hnd : l.Nodup) (hsame : ∀ j, j ≠ i → t2 j = t1 j) :
    l.foldr (fun j acc => xor (t2 j) acc) false
      = xor (l.foldr (fun j acc => xor (t1 j) acc) false)
          (if i ∈ l then xor (t2 i) (t1 i) else false) := by
  induction l with
  | nil => simp
  | cons a l ih =>
    have hnd2 : l.Nodup := (List.nodup_cons.mp hnd).2
    by_cases ha : a = i
    · subst ha
      have hni : a ∉ l := (List.nodup_cons.mp hnd).1
      simp only [List.foldr_cons, List.mem_cons, true_or, if_pos]
      rw [xor_foldr_congr t1 t2 l (fun j hj => hsame j (fun hji => hni (hji ▸ hj)))]
      exact bool_xor_helper1 _ _ _
    · simp only [List.foldr_cons]
      rw [hsame a ha, ih hnd2]
      have hif : (if i ∈ a :: l then xor (t2 i) (t1 i) else false)
          = (if i ∈ l then xor (t2 i) (t1 i) else false) := by
        by_cases hi : i ∈ l
        · rw [if_pos hi, if_pos (List.mem_cons_of_mem a hi)]
        · rw [if_neg hi, if_neg ?_]
          intro h
          rcases List.mem_cons.mp h with h1 | h2
          · exact ha h1.symm
          · exact hi h2
      rw [hif, ← Bool.xor_assoc]

/-- Membership in the site list is the site-bounds predicate. -/
theorem mem_all_sites (d : Nat) (i : Int × Int) :
    i ∈ all_sites d ↔ is_in_site_bounds d i = true := by
  obtain ⟨a, b⟩ := i
  unfold all_sites is_in_site_bounds site_bounds
  simp only [List.mem_flatMap, List.mem_map, List.mem_range, decide_eq_true_eq]
  constructor
  · rintro ⟨x, hx, y, hy, h⟩
    rw [Prod.mk.injEq] at h
    obtain ⟨rfl, rfl⟩ := h
    omega
  · rintro ⟨h1, h2, h3, h4⟩
    exact ⟨a.toNat, by omega, b.toNat, by omega, by simp only [Prod.mk.injEq]; omega⟩

/-- The site list has no duplicates. -/
theorem nodup_all_sites (d : Nat) : (all_sites d).Nodup := by
  unfold all_sites
  rw [List.nodup_flatMap]
  constructor
  · intro x hx
    refine List.Nodup.map ?_ (List.nodup_range d)
    intro a b hab
    simpa using hab
  · refine List.Pairwise.imp ?_ (List.pairwise_lt_range d)
    intro a b hab v hva hvb
    simp only [Function.onFun] at hva hvb
    simp only [List.mem_map, List.mem_range] at hva hvb
    obtain ⟨ya, hya, rfl⟩ := hva
    obtain ⟨yb, hyb, hv⟩ := hvb
    rw [Prod.mk.injEq] at hv
    have h1 := hv.1
    omega

/-- XOR difference of symplectic pairings before and after an XOR update. -/
theorem sympPair_xorP : ∀ u v m : Bool × Bool,
    xor (sympPair u (xorP v m)) (sympPair u v) = sympPair u m := by decide

/-- A single site application changes the symplectic product against a fixed
operator by the local pairing, when the site is in bounds, and not at all
otherwise. -/
theorem bsp_site1 (d : Nat) (a : PauliState) (op : Pauli) (i : Int × Int)
    (st : PauliState) :
    bsp d a (site1 d op i st)
      = xor (bsp d a st)
          (if is_in_site_bounds d i then sympPair (a i) (pauliBits op)
           else false) := by
  by_cases hb : is_in_site_bounds d i = true
  · rw [if_pos hb]
    unfold bsp
    rw [xor_foldr_update (fun j => sympPair (a j) (st j))
        (fun j => sympPair (a j) (site1 d op i st j)) i (all_sites d)
        (nodup_all_sites d) ?_]
    · rw [if_pos ((mem_all_sites d i).mpr hb)]
      have hsti : site1 d op i st i = xorP (st i) (pauliBits op) := by
        unfold site1
        rw [if_pos hb]
        simp
      rw [hsti, sympPair_xorP]
    · intro j hj
      have : site1 d op i st j = st j := by
        unfold site1
        rw [if_pos hb]
        simp [hj]
      simp only [this]
  · have : site1 d op i st = st := by
      unfold site1
      rw [if_neg hb]
    rw [this, if_neg hb, Bool.xor_false]

/-- A site list application changes the symplectic product by the list's
total contribution. -/
theorem bsp_siteList (d : Nat) (a : PauliState) (op : Pauli)
    (l : List (Int × Int)) (st : PauliState) :
    bsp d a (siteList d op l st)
      = xor (bsp d a st) (listContrib d a op l) := by
  induction l generalizing st with
  | nil => simp [siteList, listContrib]
  | cons i l ih =>
    rw [siteList_cons, ih, bsp_site1, Bool.xor_assoc]
    rfl

/-- The symplectic product against the identity operator vanishes. -/
theorem bsp_identityState (d : Nat) (a : PauliState) :
    bsp d a identityState = false := by
  unfold bsp
  generalize all_sites d = l
  induction l with
  | nil => rfl
  | cons i l ih => simp [identityState, sympPair, ih]

/-- Folding recovery paths into a state changes each symplectic product by
the accumulated path contributions. -/
theorem bsp_recovery_paths (d : Nat) (a : PauliState)
    (plaqs : List (Int × Int)) : ∀ st : PauliState,
    bsp d a
        (plaqs.foldl
          (fun st p => siteList d Pauli.X (recoveryPathSites d p) st) st)
      = xor (bsp d a st) (recoveryContrib d a plaqs) := by
  induction plaqs with
  | nil => intro st; simp [recoveryContrib]
  | cons p plaqs ih =>
    intro st
    rw [List.foldl_cons, ih, bsp_siteList, Bool.xor_assoc]
    rfl

/-- The occurrence parity of an element absent from a list is zero. -/
theorem xorCount_eq_false (l : List (Int × Int)) (q : Int × Int)
    (h : ∀ p ∈ l, p ≠ q) : xorCount l q = false := by
  induction l with
  | nil => rfl
  | cons p l ih =>
    unfold xorCount
    simp only [List.foldr_cons]
    rw [decide_eq_false (h p (by simp)), Bool.false_xor]
    exact ih (fun r hr => h r (by simp [hr]))

/-- One step of the occurrence parity. -/
theorem xorCount_cons (p : Int × Int) (l : List (Int × Int)) (q : Int × Int) :
    xorCount (p :: l) q = xor (decide (p = q)) (xorCount l q) := rfl

/-- A plaquette selected from the zipped syndrome belongs to the index list. -/
theorem mem_of_mem_selected (P : List (Int × Int)) (S : List Bool)
    (p : Int × Int)
    (h : p ∈ (P.zip S).filterMap (fun pb => if pb.2 then some pb.1 else none)) :
    p ∈ P := by
  simp only [List.mem_filterMap] at h
  obtain ⟨⟨p1, b⟩, hmem, hif⟩ := h
  cases b with
  | false => simp at hif
  | true =>
    simp only [if_pos] at hif
    obtain rfl : p1 = p := by simpa using hif
    exact (List.of_mem_zip hmem).1

/-- Reading off each index's occurrence parity in the selected sublist of a
duplicate-free index list recovers the selecting bit-vector. -/
theorem map_xorCount_selected : ∀ (P : List (Int × Int)) (S : List Bool),
    P.Nodup → S.length = P.length →
    P.map
        (fun q =>
          xorCount ((P.zip S).filterMap (fun pb => if pb.2 then some pb.1 else none)) q)
      = S := by
  intro P
  induction P with
  | nil =>
    intro S _ hlen
    simp only [List.length_nil, List.length_eq_zero] at hlen
    simp [hlen]
  | cons q P ih =>
    intro S hnd hlen
    cases S with
    | nil => simp at hlen
    | cons b S =>
      have hqP : q ∉ P := (List.nodup_cons.mp hnd).1
      have hndP : P.Nodup := (List.nodup_cons.mp hnd).2
      have hlen2 : S.length = P.length := by simpa using hlen
      simp only [List.zip_cons_cons, List.filterMap_cons, List.map_cons]
      have hrest : ∀ p ∈ (P.zip S).filterMap
          (fun pb => if pb.2 then some pb.1 else none), p ≠ q := by
        intro p hp hpq
        exact hqP (hpq ▸ mem_of_mem_selected P S p hp)
      cases b with
      | false =>
        simp only [Bool.false_eq_true, if_false]
        rw [xorCount_eq_false _ q hrest]
        rw [ih S hndP hlen2]
      | true =>
        simp only [if_true]
        rw [xorCount_cons, decide_eq_true rfl, xorCount_eq_false _ q hrest,
          Bool.xor_false]
        have htail : P.map
            (fun r =>
              xorCount
                (q :: (P.zip S).filterMap (fun pb => if pb.2 then some pb.1 else none)) r)
            = P.map
            (fun r =>
              xorCount ((P.zip S).filterMap (fun pb => if pb.2 then some pb.1 else none)) r) := by
          refine List.map_congr_left ?_
          intro r hr
          rw [xorCount_cons, decide_eq_false ?_, Bool.false_xor]
          rintro rfl
          exact hqP hr
        rw [htail, ih S hndP hlen2]

/-- Per-plaquette path contributions equal to a point mask turn the recovery
contribution into the occurrence parity. -/
theorem recoveryContrib_eq_xorCount (d : Nat) (q : Int × Int)
    (plaqs : List (Int × Int))
    (h : ∀ p ∈ plaqs,
      listContrib d (stabState d q) Pauli.X (recoveryPathSites d p)
        = decide (p = q)) :
    recoveryContrib d (stabState d q) plaqs = xorCount plaqs q := by
  induction plaqs with
  | nil => rfl
  | cons p plaqs ih =>
    unfold recoveryContrib xorCount
    simp only [List.foldr_cons]
    rw [h p (by simp)]
    have ih2 := ih (fun r hr => h r (by simp [hr]))
    unfold recoveryContrib xorCount at ih2
    rw [ih2]

/-- Generic syndrome-consistency assembly: if every single plaquette path
trips exactly its own stabilizer, the recovery of any syndrome reproduces
that syndrome. -/
theorem syndrome_consistency_core (d : Nat)
    (hnd : (plaquette_indices d).Nodup)
    (hdelta : ∀ q ∈ plaquette_indices d, ∀ p ∈ plaquette_indices d,
      listContrib d (stabState d q) Pauli.X (recoveryPathSites d p)
        = decide (p = q))
    (S : List Bool) (hS : S.length = (plaquette_indices d).length) :
    syndromeOf d (sample_recovery d (syndrome_to_plaquette_indices d S)) = S := by
  unfold syndromeOf
  have hmap : ∀ q ∈ plaquette_indices d,
      bsp d (stabState d q)
          (sample_recovery d (syndrome_to_plaquette_indices d S))
        = xorCount (syndrome_to_plaquette_indices d S) q := by
    intro q hq
    unfold sample_recovery
    rw [bsp_recovery_paths, bsp_identityState, Bool.false_xor]
    refine recoveryContrib_eq_xorCount d q _ ?_
    intro p hp
    exact hdelta q hq p
      (mem_of_mem_selected (plaquette_indices d) S p hp)
  rw [List.map_congr_left hmap]
  exact map_xorCount_selected (plaquette_indices d) S hnd hS

/-- Membership in the down-left path, in arithmetic form. -/
theorem mem_downLeft (x y : Int) (hx : 0 ≤ x) (hy : 0 ≤ y) (s : Int × Int) :
    s ∈ downLeftSites x y ↔
      (s.1 - s.2 = x - y ∧ 0 ≤ s.1 ∧ 0 ≤ s.2 ∧ s.1 ≤ x) := by
  obtain ⟨a, b⟩ := s
  rw [downLeftSites_eq, if_pos ⟨hx, hy⟩]
  simp only [List.mem_map, List.mem_range, Prod.mk.injEq]
  constructor
  · rintro ⟨k, hk, rfl, rfl⟩
    omega
  · rintro ⟨hdg, h1, h2, h3⟩
    exact ⟨(x - a).toNat, by omega, by omega, by omega⟩

/-- Membership in the up-right path, in arithmetic form. -/
theorem mem_upRight (mx my x y : Int) (hx : x ≤ mx) (hy : y ≤ my)
    (s : Int × Int) :
    s ∈ upRightSites mx my x y ↔
      (s.1 - s.2 = x - y ∧ x ≤ s.1 ∧ s.1 ≤ mx ∧ s.2 ≤ my) := by
  obtain ⟨a, b⟩ := s
  rw [upRightSites_eq, if_pos ⟨hx, hy⟩]
  simp only [List.mem_map, List.mem_range, Prod.mk.injEq]
  constructor
  · rintro ⟨k, hk, rfl, rfl⟩
    omega
  · rintro ⟨hdg, h1, h2, h3⟩
    exact ⟨(a - x).toNat, by omega, by omega, by omega⟩

/-- The down-left path visits no site twice. -/
theorem nodup_downLeft (x y : Int) : (downLeftSites x y).Nodup := by
  rw [downLeftSites_eq]
  split_ifs with h
  · refine List.Nodup.map ?_ (List.nodup_range _)
    intro k1 k2 hk
    simp only [Prod.mk.injEq] at hk
    omega
  · exact List.nodup_nil

/-- The up-right path visits no site twice. -/
theorem nodup_upRight (mx my x y : Int) : (upRightSites mx my x y).Nodup := by
  rw [upRightSites_eq]
  split_ifs with h
  · refine List.Nodup.map ?_ (List.nodup_range _)
    intro k1 k2 hk
    simp only [Prod.mk.injEq] at hk
    omega
  · exact List.nodup_nil

/-- Pairing against a single X extracts the z-bit. -/
theorem sympPair_pauliX : ∀ u : Bool × Bool,
    sympPair u (pauliBits Pauli.X) = u.2 := by decide

/-- The z-component of a pair XOR. -/
theorem xorP_snd (a b : Bool × Bool) : (xorP a b).2 = xor a.2 b.2 := rfl

/-- The z-component of a site mask. -/
theorem siteMask_snd (d : Nat) (op : Pauli) (i j : Int × Int) :
    (siteMask d op i j).2
      = (decide (j = i) && is_in_site_bounds d i && (pauliBits op).2) := by
  unfold siteMask
  split_ifs with h
  · simp [h.1, h.2]
  · rcases Decidable.not_and_iff_or_not.mp h with h1 | h1 <;> simp [h1]

/-- An XOR-fold of two point indicators over a duplicate-free list is the XOR
of the two membership bits. -/
theorem xor_foldr_two_corners (u v : Int × Int) (hne : u ≠ v) :
    ∀ l : List (Int × Int), l.Nodup →
    l.foldr (fun s acc => xor (decide (s = u) || decide (s = v)) acc) false
      = xor (decide (u ∈ l)) (decide (v ∈ l)) := by
  intro l
  induction l with
  | nil => simp
  | cons a l ih =>
    intro hnd
    have hna : a ∉ l := (List.nodup_cons.mp hnd).1
    simp only [List.foldr_cons, ih (List.nodup_cons.mp hnd).2]
    by_cases hu : a = u
    · subst hu
      have hvna : v ≠ a := fun h => hne (h.symm ▸ rfl)
      simp [List.mem_cons, hna, hvna]
    · by_cases hv : a = v
      · subst hv
        have huna : u ≠ a := fun h => hne (h ▸ rfl)
        simp [List.mem_cons, hna, huna]
      · have h1 : u ≠ a := fun h => hu h.symm
        have h2 : v ≠ a := fun h => hv h.symm
        simp [List.mem_cons, hu, hv, h1, h2]

/-- The z-bit plane of an XZZXdY stabilizer: exactly the SW and NE corners of
the plaquette, restricted to the site grid (the Y promotions only change the
x-bit plane). -/
theorem stabState_z (d : Nat) (q : Int × Int)
    (hq : is_in_plaquette_bounds d q = true) (i : Int × Int) :
    (stabState d q i).2
      = ((decide (i = (q.1, q.2)) || decide (i = (q.1 + 1, q.2 + 1)))
          && is_in_site_bounds d i) := by
  have hne12 : (q.1, q.2) ≠ (q.1, q.2 + 1) := by
    simp only [Ne, Prod.mk.injEq]
    omega
  unfold stabState plaquetteXZZXdY
  rw [if_pos hq]
  have key : ∀ o1 o3 : Pauli, (pauliBits o1).2 = true → (pauliBits o3).2 = true →
      (site1 d Pauli.X (q.1 + 1, q.2)
          (site1 d o3 (q.1 + 1, q.2 + 1)
            (site1 d Pauli.X (q.1, q.2 + 1)
              (site1 d o1 (q.1, q.2) identityState))) i).2
        = ((decide (i = (q.1, q.2)) || decide (i = (q.1 + 1, q.2 + 1)))
            && is_in_site_bounds d i) := by
    intro o1 o3 ho1 ho3
    simp only [site1_apply, xorP_snd, siteMask_snd, identityState, ho1, ho3]
    simp only [pauliBits, Bool.and_false, Bool.and_true, Bool.xor_false,
      Bool.false_xor]
    by_cases h1 : i = (q.1, q.2)
    · have h2 : ¬ i = (q.1, q.2 + 1) := by
        subst h1
        simp only [Prod.mk.injEq]
        omega
      have h3 : ¬ i = (q.1 + 1, q.2 + 1) := by
        subst h1
        simp only [Prod.mk.injEq]
        omega
      have h4 : ¬ i = (q.1 + 1, q.2) := by
        subst h1
        simp only [Prod.mk.injEq]
        omega
      subst h1
      simp [h2, h3, h4]
    · by_cases h3 : i = (q.1 + 1, q.2 + 1)
      · have h2 : ¬ i = (q.1, q.2 + 1) := by
          subst h3
          simp only [Prod.mk.injEq]
          omega
        have h4 : ¬ i = (q.1 + 1, q.2) := by
          subst h3
          simp only [Prod.mk.injEq]
          omega
        subst h3
        simp [h1, h2, h4]
      · simp [h1, h3]
  split_ifs with hc1 hc2
  · exact key Pauli.Y Pauli.Z rfl rfl
  · exact key Pauli.Z Pauli.Y rfl rfl
  · exact key Pauli.Z Pauli.Z rfl rfl

/-- Against a stabilizer, the contribution of an X-path through in-bounds
sites is the XOR of the path's hits on the plaquette's SW and NE corners. -/
theorem listContrib_stab (d : Nat) (q : Int × Int)
    (hq : is_in_plaquette_bounds d q = true) (l : List (Int × Int))
    (hin : ∀ s ∈ l, is_in_site_bounds d s = true) (hnd : l.Nodup) :
    listContrib d (stabState d q) Pauli.X l
      = xor (decide ((q.1, q.2) ∈ l)) (decide ((q.1 + 1, q.2 + 1) ∈ l)) := by
  have hne : (q.1, q.2) ≠ (q.1 + 1, q.2 + 1) := by
    simp only [Ne, Prod.mk.injEq]
    omega
  unfold listContrib
  rw [xor_foldr_congr
      (fun s => decide (s = (q.1, q.2)) || decide (s = (q.1 + 1, q.2 + 1)))
      (fun s =>
        if is_in_site_bounds d s then sympPair (stabState d q s) (pauliBits Pauli.X)
        else false)
      l ?_]
  · exact xor_foldr_two_corners (q.1, q.2) (q.1 + 1, q.2 + 1) hne l hnd
  · intro j hj
    dsimp only
    rw [if_pos (hin j hj), sympPair_pauliX, stabState_z d q hq j, hin j hj,
      Bool.and_true]

/-- The plaquette-bounds predicate in arithmetic form. -/
theorem plaq_bounds_iff (d : Nat) (i : Int × Int) :
    is_in_plaquette_bounds d i = true ↔
      (((i.1 + i.2) % 2 = 0 ∧ 0 ≤ i.1 ∧ i.1 ≤ (d : Int) - 2
          ∧ -1 ≤ i.2 ∧ i.2 ≤ (d : Int) - 1)
        ∨ (¬ (i.1 + i.2) % 2 = 0 ∧ -1 ≤ i.1 ∧ i.1 ≤ (d : Int) - 1
          ∧ 0 ≤ i.2 ∧ i.2 ≤ (d : Int) - 2)) := by
  unfold is_in_plaquette_bounds is_z_plaquette site_bounds
  dsimp only
  split_ifs with h <;> simp only [decide_eq_true_eq] at h ⊢
  · constructor
    · intro hb
      left
      refine ⟨h, ?_, ?_, ?_, ?_⟩ <;> omega
    · rintro (⟨_, h1, h2, h3, h4⟩ | ⟨hp, _⟩)
      · refine ⟨?_, ?_, ?_, ?_⟩ <;> omega
      · exact absurd h hp
  · constructor
    · intro hb
      right
      refine ⟨h, ?_, ?_, ?_, ?_⟩ <;> omega
    · rintro (⟨hp, _⟩ | ⟨_, h1, h2, h3, h4⟩)
      · exact absurd hp h
      · refine ⟨?_, ?_, ?_, ?_⟩ <;> omega

/-- The plaquette index list has no duplicates. -/
theorem nodup_plaquette_indices (d : Nat) : (plaquette_indices d).Nodup := by
  unfold plaquette_indices
  refine List.Nodup.filter _ ?_
  rw [List.nodup_flatMap]
  have houter : ((List.range (d + 1)).map (fun (a : Nat) => (a : Int) - 1)).Nodup := by
    refine List.Nodup.map ?_ (List.nodup_range _)
    intro a b hab
    simp only at hab
    omega
  constructor
  · intro x hx
    refine List.Nodup.map ?_ ?_
    · intro a b hab
      simpa using hab
    · refine List.Nodup.map ?_ (List.nodup_range _)
      intro a b hab
      simp only at hab
      omega
  · refine houter.imp ?_
    intro x1 x2 hne12 v hv1 hv2
    simp only [Function.onFun, List.mem_map] at hv1 hv2
    obtain ⟨y1, _, rfl⟩ := hv1
    obtain ⟨y2, _, hv⟩ := hv2
    exact hne12 ((Prod.mk.injEq _ _ _ _).mp hv.symm).1

/-- Members of the plaquette index list are in plaquette bounds. -/
theorem mem_plaquette_indices (d : Nat) (i : Int × Int)
    (h : i ∈ plaquette_indices d) : is_in_plaquette_bounds d i = true := by
  unfold plaquette_indices at h
  exact (List.mem_filter.mp h).2

/-- The geometric core of syndrome consistency, for every odd distance: the
recovery path of an in-bounds plaquette trips a stabilizer exactly when the
stabilizer is the plaquette's own. -/
theorem delta_general (d : Nat) (hodd : d % 2 = 1) (q p : Int × Int)
    (hq : is_in_plaquette_bounds d q = true)
    (hp : is_in_plaquette_bounds d p = true) :
    listContrib d (stabState d q) Pauli.X (recoveryPathSites d p)
      = decide (p = q) := by
  obtain ⟨px, py⟩ := p
  obtain ⟨qx, qy⟩ := q
  have hqb := (plaq_bounds_iff d (qx, qy)).mp hq
  have hpb := (plaq_bounds_iff d (px, py)).mp hp
  dsimp only at hqb hpb
  have hd1 : (1 : Int) ≤ (d : Int) := by
    rcases hpb with ⟨_, h1, h2, _⟩ | ⟨_, h1, h2, _⟩ <;> omega
  unfold recoveryPathSites site_bounds
  dsimp only
  split_ifs with hcase
  · -- down-left branch
    have hx0 : 0 ≤ px := by omega
    have hy0 : 0 ≤ py := by omega
    have hin : ∀ s ∈ downLeftSites px py, is_in_site_bounds d s = true := by
      intro s hs
      rw [mem_downLeft px py hx0 hy0] at hs
      unfold is_in_site_bounds site_bounds
      simp only [decide_eq_true_eq]
      refine ⟨?_, ?_, ?_, ?_⟩ <;> omega
    rw [listContrib_stab d (qx, qy) hq (downLeftSites px py) hin
        (nodup_downLeft px py)]
    dsimp only
    by_cases h1 : (qx, qy) ∈ downLeftSites px py
    · by_cases h2 : (qx + 1, qy + 1) ∈ downLeftSites px py
      · by_cases h3 : (px, py) = (qx, qy)
        · exfalso
          rw [mem_downLeft px py hx0 hy0] at h2
          simp only [Prod.mk.injEq] at h3
          omega
        · rw [decide_eq_true h1, decide_eq_true h2, decide_eq_false h3]
          rfl
      · by_cases h3 : (px, py) = (qx, qy)
        · rw [decide_eq_true h1, decide_eq_false h2, decide_eq_true h3]
          rfl
        · exfalso
          rw [mem_downLeft px py hx0 hy0] at h1 h2
          simp only [Prod.mk.injEq, not_and] at h2 h3
          omega
    · by_cases h2 : (qx + 1, qy + 1) ∈ downLeftSites px py
      · exfalso
        rw [mem_downLeft px py hx0 hy0] at h1 h2
        omega
      · by_cases h3 : (px, py) = (qx, qy)
        · exfalso
          rw [mem_downLeft px py hx0 hy0] at h1
          simp only [Prod.mk.injEq] at h3
          omega
        · rw [decide_eq_false h1, decide_eq_false h2, decide_eq_false h3]
          rfl
  · -- up-right branch
    have hxm : px + 1 ≤ (d : Int) - 1 := by omega
    have hym : py + 1 ≤ (d : Int) - 1 := by omega
    have hin : ∀ s ∈ upRightSites ((d : Int) - 1) ((d : Int) - 1) (px + 1) (py + 1),
        is_in_site_bounds d s = true := by
      intro s hs
      rw [mem_upRight _ _ _ _ hxm hym] at hs
      unfold is_in_site_bounds site_bounds
      simp only [decide_eq_true_eq]
      refine ⟨?_, ?_, ?_, ?_⟩ <;> omega
    rw [listContrib_stab d (qx, qy) hq _ hin (nodup_upRight _ _ _ _)]
    dsimp only
    by_cases h1 : (qx, qy) ∈ upRightSites ((d : Int) - 1) ((d : Int) - 1) (px + 1) (py + 1)
    · by_cases h2 : (qx + 1, qy + 1) ∈
          upRightSites ((d : Int) - 1) ((d : Int) - 1) (px + 1) (py + 1)
      · by_cases h3 : (px, py) = (qx, qy)
        · exfalso
          rw [mem_upRight _ _ _ _ hxm hym] at h1
          simp only [Prod.mk.injEq] at h3
          omega
        · rw [decide_eq_true h1, decide_eq_true h2, decide_eq_false h3]
          rfl
      · exfalso
        rw [mem_upRight _ _ _ _ hxm hym] at h1 h2
        simp only [not_and] at h2
        omega
    · by_cases h2 : (qx + 1, qy + 1) ∈
          upRightSites ((d : Int) - 1) ((d : Int) - 1) (px + 1) (py + 1)
      · by_cases h3 : (px, py) = (qx, qy)
        · rw [decide_eq_false h1, decide_eq_true h2, decide_eq_true h3]
          rfl
        · exfalso
          rw [mem_upRight _ _ _ _ hxm hym] at h1 h2
          simp only [Prod.mk.injEq, not_and] at h1 h3
          omega
      · by_cases h3 : (px, py) = (qx, qy)
        · exfalso
          rw [mem_upRight _ _ _ _ hxm hym] at h2
          simp only [Prod.mk.injEq] at h3
          omega
        · rw [decide_eq_false h1, decide_eq_false h2, decide_eq_false h3]
          rfl

/-- C4: for every odd code distance, recomputing the syndrome of the
operator returned by sample_recovery on any syndrome bit-vector of valid
length yields exactly the input syndrome; the violated plaquettes range over
the upper-left region, the lower-right region and the main diagonal. -/
theorem claim_C4 (d : Nat) (hodd : d % 2 = 1) (S : List Bool)
    (hS : S.length = (plaquette_indices d).length) :
    syndromeOf d (sample_recovery d (syndrome_to_plaquette_indices d S)) = S := by
  refine syndrome_consistency_core d (nodup_plaquette_indices d) ?_ S hS
  intro q hq p hp
  exact delta_general d hodd q p (mem_plaquette_indices d q hq)
    (mem_plaquette_indices d p hp)

/-- Witness for C4: a concrete single-plaquette syndrome on the distance-3
code. -/
theorem claim_C4_witness :
    syndromeOf 3
        (sample_recovery 3
          (syndrome_to_plaquette_indices 3
            [true, false, false, false, false, false, false, false]))
      = [true, false, false, false, false, false, false, false] :=
  claim_C4 3 (by decide)
    [true, false, false, false, false, false, false, false] (by decide)
